import Mathlib

/-!
Verification of `server-utils` (src/src/server-utils.ts).

The file shallowly embeds the two cores of the library:

* `serveModule` / `serveModules`: manifest-driven route construction for a
  node module, dispatching requests to 302 redirects or static serving.
  Express routing is external to the repository; it is modelled by
  first-match dispatch over the registered rules, with `router.get`
  matching one literal path (a `:file` parameter matching one non-empty
  slash-free segment) and `router.use` matching every path.
* `managedShutdown`: the SIGINT shutdown state machine, embedded as an
  explicit state type and a step function over discrete events.

Strings are handled through their underlying character lists so that every
definition is structurally recursive and kernel-computable.
-/

namespace ServerUtils

abbrev Chars := List Char

/-- Boolean test that `p` is a leading segment of `l` (used in place of the
library function to keep everything self-contained). -/
def isPre : Chars → Chars → Bool
  | [], _ => true
  | _ :: _, [] => false
  | a :: as, b :: bs => a = b && isPre as bs

/-- Boolean test that `s` is a trailing segment of `l`. -/
def endsIn (s l : Chars) : Bool := isPre s.reverse l.reverse

/-- Splits a character list on `'/'`; mirrors the segment decomposition that
`path.posix.normalize` performs. -/
def splitOnSlash : Chars → List Chars
  | [] => [[]]
  | c :: rest =>
    let r := splitOnSlash rest
    if c = '/' then [] :: r
    else
      match r with
      | s :: ss => (c :: s) :: ss
      | [] => [[c]]

/-- Segment normalization of `path.posix.normalize`: drops empty and `"."`
segments and resolves `".."`, keeping leading `".."`s only for relative
paths (`allowAboveRoot`). The accumulator is kept reversed. -/
def normSegsRev (allowAboveRoot : Bool) : List Chars → List Chars → List Chars
  | acc, [] => acc
  | acc, seg :: rest =>
    if seg = [] || seg = ['.'] then normSegsRev allowAboveRoot acc rest
    else if seg = ['.', '.'] then
      match acc with
      | top :: accTail =>
        if top = ['.', '.'] then normSegsRev allowAboveRoot (['.', '.'] :: acc) rest
        else normSegsRev allowAboveRoot accTail rest
      | [] =>
        if allowAboveRoot then normSegsRev allowAboveRoot [['.', '.']] rest
        else normSegsRev allowAboveRoot [] rest
    else normSegsRev allowAboveRoot (seg :: acc) rest

/-- Interleaves `'/'` between segments, as `path.posix` rejoins them. -/
def joinSegs : List Chars → Chars
  | [] => []
  | [s] => s
  | s :: rest => s ++ '/' :: joinSegs rest

/-- Model of `path.posix.normalize` on character lists. -/
def posixNormalizeL (l : Chars) : Chars :=
  if l = [] then ['.']
  else
    let isAbs : Bool := isPre ['/'] l
    let trail : Bool := endsIn ['/'] l
    let segs := (normSegsRev (!isAbs) [] (splitOnSlash l)).reverse
    let body := joinSegs segs
    if body = [] then
      if isAbs then ['/'] else if trail then ['.', '/'] else ['.']
    else
      (if isAbs then '/' :: body else body) ++ (if trail then ['/'] else [])

/-- Concatenates the non-empty pieces with `'/'`, as `path.posix.join` does
before normalizing. -/
def joinParts : List Chars → Chars
  | [] => []
  | [p] => p
  | p :: rest =>
    match joinParts rest with
    | [] => p
    | r => p ++ '/' :: r

/-- Model of `path.join(...parts)` (POSIX): empty arguments are skipped, the
rest are joined with `'/'` and the result is normalized; with no non-empty
argument the result is `"."`. -/
def pathJoin (parts : List String) : String :=
  let ps := (parts.map String.data).filter (fun p => p ≠ [])
  if ps = [] then "." else ⟨posixNormalizeL (joinParts ps)⟩

/-- Index of the first occurrence of a character, as the position search of
JS `String.prototype.replace` with a string pattern. -/
def firstIdxOfChar (c : Char) : Chars → Option Nat
  | [] => none
  | x :: xs => if x = c then some 0 else (firstIdxOfChar c xs).map (fun i => i + 1)

/-- The GetSubstitution step of JS `String.prototype.replace`: the
replacement string is scanned for dollar patterns. With a plain-string
search pattern there are no capture groups, so only four patterns expand:
a doubled dollar to a literal dollar, dollar-ampersand to the matched text,
dollar-backquote (code point 96) to the part of the subject before the
match, and dollar-quote (code point 39) to the part after it; any other
dollar sequence is literal text. -/
def expandDollar (matched pre suf : Chars) : Chars → Chars
  | [] => []
  | c :: rest =>
    if c = '$' then
      match rest with
      | [] => ['$']
      | d :: rest2 =>
        if d = '$' then '$' :: expandDollar matched pre suf rest2
        else if d = '&' then matched ++ expandDollar matched pre suf rest2
        else if d = Char.ofNat 96 then pre ++ expandDollar matched pre suf rest2
        else if d = Char.ofNat 39 then suf ++ expandDollar matched pre suf rest2
        else '$' :: d :: expandDollar matched pre suf rest2
    else c :: expandDollar matched pre suf rest

/-- JS `String.prototype.replace` with the one-character string pattern
`c`: the first occurrence of `c` is replaced by the replacement string
after dollar-pattern expansion (`file.replace('*', req.params.file)`). -/
def replaceFirstCharL (c : Char) (rep l : Chars) : Chars :=
  match firstIdxOfChar c l with
  | none => l
  | some i => l.take i ++ expandDollar [c] (l.take i) (l.drop (i + 1)) rep ++ l.drop (i + 1)

/-- String version of `replaceFirstCharL`. -/
def jsReplaceFirst (s : String) (c : Char) (rep : String) : String :=
  ⟨replaceFirstCharL c rep.data s.data⟩

/-- A manifest value as far as `serveModule` inspects it: the code casts
`pkg.exports` to `Record<string, string>` without a runtime check, so a
value is either the expected string or some other JSON value (modelled by
`obj`, e.g. the object form of conditional exports). -/
inductive JSVal where
  | str (s : String)
  | obj (fields : List (String × String))
deriving DecidableEq, Repr

/-- The fields of `package.json` that `serveModule` reads. `none` models a
nullish (absent) field, matching the `??` chains in the code; `exports` is
the ordered entry list that `Object.entries(pkg.exports ?? {})` iterates. -/
structure Manifest where
  browser : Option String
  module : Option String
  main : Option String
  exports : Option (List (String × JSVal))
deriving DecidableEq, Repr

/-- Model of `pkg.browser ?? pkg.module ?? pkg.main`: nullish coalescing
takes the first present field, whatever its value. -/
def entryPointCode (m : Manifest) : Option String :=
  match m.browser with
  | some b => some b
  | none =>
    match m.module with
    | some v => some v
    | none => m.main

/-- Model of `exp.replace(/^\.\/?/, '')`: strips one leading `"."` and, if
present, the `"/"` right after it. -/
def stripKey (s : String) : String :=
  if isPre ['.', '/'] s.data then ⟨s.data.drop 2⟩
  else if isPre ['.'] s.data then ⟨s.data.drop 1⟩
  else s

/-- The registered request handlers, in registration order. `entry` is
`router.get('/')`; `glob` is `router.get('/' + submodule w/ trailing '*'
-> ':file')` with the wildcard target and base URL captured; `exact` is
`router.get('/' + submodule)` with the redirect target precomputed; `dir`
is `router.get('/' + submodule)` redirecting to
`path.join(base_url, submodule, req.url)`; `staticFallback` is
`router.use('/', express.static(dir))`. -/
inductive Rule where
  | entry (target : String)
  | glob (pre : String) (pat : JSVal) (base : String)
  | exact (name : String) (target : String)
  | dir (name : String) (base : String)
  | staticFallback (d : String)
deriving DecidableEq, Repr

/-- What the module router answers with: a 302 redirect carrying a
`location`, delegation to static file serving of a directory at the request
path, or a request-time crash (e.g. `.replace` on a non-string target). -/
inductive Response where
  | redirect (location : String)
  | staticServe (d : String) (path : String)
  | appError
deriving DecidableEq, Repr

/-- Express `:file` parameter matching: the sub-path after the glob's fixed
part must be one non-empty segment without `'/'`. -/
def globMatch (pre p : Chars) : Bool :=
  isPre ('/' :: pre) p &&
    (let seg := p.drop (pre.length + 1)
     seg ≠ [] && !seg.contains '/')

/-- Whether a registered rule matches a request path (relative to the module
router's mount point). `router.get` paths match literally; `router.use '/'`
matches everything. -/
def ruleMatches : Rule → String → Bool
  | .entry _, p => p = "/"
  | .glob pre _ _, p => globMatch pre.data p.data
  | .exact name _, p => p.data = '/' :: name.data
  | .dir name _, p => p.data = '/' :: name.data
  | .staticFallback _, _ => true

/-- The captured `req.params.file` of a matched glob route. -/
def segOf (pre p : String) : String := ⟨p.data.drop (pre.data.length + 1)⟩

/-- Runs a matched rule's handler on the request path. -/
def applyRule (r : Rule) (p : String) : Response :=
  match r with
  | .entry target => .redirect target
  | .glob pre pat base =>
    match pat with
    | .str f => .redirect (pathJoin [base, jsReplaceFirst f '*' (segOf pre p)])
    | .obj _ => .appError
  | .exact _ target => .redirect target
  | .dir name base => .redirect (pathJoin [base, name, p])
  | .staticFallback d => .staticServe d p

/-- Express dispatch: the first registered rule that matches the request
path handles it; `none` means no handler ran. -/
def handle (rs : List Rule) (p : String) : Option Response :=
  (rs.find? (fun r => ruleMatches r p)).map (fun r => applyRule r p)

/-- Failures thrown while `serveModule` builds the router: `entryMissing`
is the `TypeError` from `path.join(base_url, undefined)` when none of
`browser`/`module`/`main` is present; `nonStringExport` is the `TypeError`
from `file.endsWith(".js")` when an export value under a non-glob key is
not a string. -/
inductive BuildError where
  | entryMissing
  | nonStringExport
deriving DecidableEq, Repr

/-- The export-compilation loop of `serveModule`: iterates the export
entries in declared order, strips the key's leading `./`, skips the empty
key, compiles a trailing-`*` key to a glob route, a `.js` target to an
exact-file route, and anything else to a `dir` route; touching `.endsWith`
on a non-string target throws. -/
def compileExports (base : String) : List (String × JSVal) → Except BuildError (List Rule)
  | [] => .ok []
  | (exp, file) :: rest =>
    let sub := stripKey exp
    if sub.data = [] then compileExports base rest
    else if endsIn ['*'] sub.data then
      (compileExports base rest).map (fun rs => Rule.glob ⟨sub.data.dropLast⟩ file base :: rs)
    else
      match file with
      | .str f =>
        if endsIn ['.', 'j', 's'] f.data then
          (compileExports base rest).map (fun rs => Rule.exact sub (pathJoin [base, f]) :: rs)
        else
          (compileExports base rest).map (fun rs => Rule.dir sub base :: rs)
      | .obj _ => .error .nonStringExport

deriving instance DecidableEq for Except

/-- Route construction of `serveModule m node_modules base`: the entry
redirect for `'/'` first, then the compiled export rules in declared order,
then the `express.static` fallback for the package directory `d`. -/
def buildRoutes (m : Manifest) (base d : String) : Except BuildError (List Rule) :=
  match entryPointCode m with
  | none => .error .entryMissing
  | some e =>
    (compileExports base (m.exports.getD [])).map
      (fun mid => Rule.entry (pathJoin [base, e]) :: (mid ++ [Rule.staticFallback d]))

/-- The closure state of `managedShutdown`: `graceful` is the shutdown mode
(`true` = Graceful, `false` = Kill), `terminating` records that a drain is
in progress, `timerActive` that the deadline timeout is pending, `exited`
the exit status once `process.exit` ran. `terminateCalls` and
`timersStarted` count how many times `gsm.terminate` was invoked and how
many deadline timers were started. -/
structure ShutdownState where
  graceful : Bool
  terminating : Bool
  timerActive : Bool
  exited : Option Int
  terminateCalls : Nat
  timersStarted : Nat
deriving DecidableEq, Repr

/-- The state right after `managedShutdown` installs the SIGINT handler. -/
def initShutdown : ShutdownState :=
  { graceful := true, terminating := false, timerActive := false
    exited := none, terminateCalls := 0, timersStarted := 0 }

/-- The discrete events the handler reacts to: a SIGINT delivery, the
deadline timeout firing, and the graceful-termination callback from the
shutdown manager (which clears the pending timer). -/
inductive SEvent where
  | interrupt
  | timerFire
  | drainComplete
deriving DecidableEq, Repr

/-- One event of the `managedShutdown` machine. A SIGINT in Graceful mode
either starts the one drain attempt (sets `terminating`, calls
`gsm.terminate`, starts the deadline timer) or, if already terminating, is
ignored; a SIGINT in Kill mode is `process.exit(-1)`. The timer callback
only flips the mode to Kill. The drain callback clears the timer. After
`process.exit` nothing runs. -/
def sstep (s : ShutdownState) (e : SEvent) : ShutdownState :=
  if s.exited.isSome then s
  else
    match e with
    | .interrupt =>
      if s.graceful then
        if s.terminating then s
        else
          { s with terminating := true, timerActive := true
                   terminateCalls := s.terminateCalls + 1
                   timersStarted := s.timersStarted + 1 }
      else { s with exited := some (-1) }
    | .timerFire =>
      if s.timerActive then { s with graceful := false, timerActive := false } else s
    | .drainComplete =>
      if s.terminating then { s with timerActive := false } else s

/-- Runs a sequence of events from a state. -/
def runEvents (s : ShutdownState) (es : List SEvent) : ShutdownState :=
  es.foldl sstep s

/-- Stated from the spec's words, for comparison with `entryPointCode`:
"entryPoint: one of {browser, module, main} chosen by priority
browser > module > main (first non-empty field wins)". -/
def entryPointSpec (m : Manifest) : Option String :=
  match m.browser with
  | some b =>
    if b ≠ "" then some b
    else
      match m.module with
      | some v => if v ≠ "" then some v else (m.main.bind fun w => if w ≠ "" then some w else none)
      | none => m.main.bind fun w => if w ≠ "" then some w else none
  | none =>
    match m.module with
    | some v => if v ≠ "" then some v else (m.main.bind fun w => if w ≠ "" then some w else none)
    | none => m.main.bind fun w => if w ≠ "" then some w else none

/-- Whether a dispatch outcome is a delegation to static serving. -/
def isStaticServe : Option Response → Bool
  | some (.staticServe _ _) => true
  | _ => false

/-- Counter invariant of the shutdown machine: the drain-attempt counters
are `1` exactly when a drain has been started. -/
def countInv (s : ShutdownState) : Prop :=
  s.terminateCalls = (if s.terminating then 1 else 0) ∧
    s.timersStarted = (if s.terminating then 1 else 0)

/-- The spec's concrete scenario manifest for package `foo`:
`{ "main": "index.js", "exports": { ".": "index.js", "./bar": "lib/bar.js",
"./glob/*": "dist/*.min.js" } }`. -/
def mScenario : Manifest :=
  { browser := none, module := none, main := some "index.js"
    exports := some [(".", .str "index.js"), ("./bar", .str "lib/bar.js"),
      ("./glob/*", .str "dist/*.min.js")] }

/-- The route table `serveModule` builds for `mScenario` at base
`/vendor/foo` with package directory `nm/foo`. -/
def routesScenario : List Rule :=
  [.entry "/vendor/foo/index.js",
   .exact "bar" "/vendor/foo/lib/bar.js",
   .glob "glob/" (.str "dist/*.min.js") "/vendor/foo",
   .staticFallback "nm/foo"]

/-- A manifest with one directory-style export (target without a `.js`
extension). -/
def mDirCase : Manifest :=
  { browser := none, module := none, main := some "index.js"
    exports := some [("./docs", .str "documentation")] }

/-- The route table `serveModule` builds for `mDirCase` at base
`/vendor/foo` with package directory `nm/foo`. -/
def routesDirCase : List Rule :=
  [.entry "/vendor/foo/index.js",
   .dir "docs" "/vendor/foo",
   .staticFallback "nm/foo"]

/-- A manifest whose `browser` field is present but empty while `main` is a
real entry file. -/
def mEmptyBrowser : Manifest :=
  { browser := some "", module := none, main := some "index.js", exports := none }

/-- A manifest carrying the object form of conditional exports under a
non-glob key. -/
def mNonString : Manifest :=
  { browser := none, module := none, main := some "index.js"
    exports := some [("./sub", .obj [("import", "x.js")])] }

/-- A manifest with two overlapping export declarations: the glob key
`./b*` and the exact key `./bar` both match the request `/bar`. -/
def mOverlap : Manifest :=
  { browser := none, module := none, main := some "index.js"
    exports := some [("./b*", .str "x/*.js"), ("./bar", .str "lib/bar.js")] }

/-- The route table `serveModule` builds for `mOverlap` at base
`/vendor/foo` with package directory `nm/foo`. -/
def routesOverlap : List Rule :=
  [.entry "/vendor/foo/index.js",
   .glob "b" (.str "x/*.js") "/vendor/foo",
   .exact "bar" "/vendor/foo/lib/bar.js",
   .staticFallback "nm/foo"]

/-- A shutdown state in the middle of a drain (Graceful mode, terminate
called, deadline timer pending). -/
def sDraining : ShutdownState :=
  { graceful := true, terminating := true, timerActive := true
    exited := none, terminateCalls := 1, timersStarted := 1 }

/-- The shutdown state after the deadline elapsed during a drain. -/
def sEscalated : ShutdownState :=
  { graceful := false, terminating := true, timerActive := false
    exited := none, terminateCalls := 1, timersStarted := 1 }

theorem isPre_iff : ∀ (a b : Chars), isPre a b = true ↔ ∃ t, b = a ++ t
  | [], b => by simp [isPre]
  | _ :: _, [] => by simp [isPre]
  | x :: xs, y :: ys => by
    simp only [isPre, Bool.and_eq_true, decide_eq_true_eq, isPre_iff xs ys]
    constructor
    · rintro ⟨rfl, t, rfl⟩
      exact ⟨t, rfl⟩
    · rintro ⟨t, ht⟩
      injection ht with h1 h2
      exact ⟨h1.symm, t, h2⟩

theorem firstIdxOfChar_append (c : Char) (a : Chars) :
    ∀ (b : Chars), c ∉ b → firstIdxOfChar c (b ++ c :: a) = some b.length
  | [], _ => by simp [firstIdxOfChar]
  | x :: xs, hb => by
    have hx : ¬(x = c) := fun h => hb (h ▸ List.mem_cons_self x xs)
    have hxs : c ∉ xs := fun h => hb (List.mem_cons_of_mem x h)
    simp [firstIdxOfChar, hx, firstIdxOfChar_append c a xs hxs]

theorem expandDollar_no_dollar (m pre suf : Chars) :
    ∀ (rep : Chars), '$' ∉ rep → expandDollar m pre suf rep = rep
  | [], _ => rfl
  | c :: rest, h => by
    have hc : ¬(c = '$') := fun hh => h (hh ▸ List.mem_cons_self c rest)
    have hr : '$' ∉ rest := fun hh => h (List.mem_cons_of_mem c hh)
    conv_lhs => unfold expandDollar
    rw [if_neg hc, expandDollar_no_dollar m pre suf rest hr]

theorem replaceFirst_at (c : Char) (rep a b : Chars) (hb : c ∉ b) :
    replaceFirstCharL c rep (b ++ c :: a) =
      b ++ expandDollar [c] b a rep ++ a := by
  have htake : (b ++ c :: a).take b.length = b := List.take_left b (c :: a)
  have hdrop : (b ++ c :: a).drop (b.length + 1) = a := by
    rw [show b ++ c :: a = (b ++ [c]) ++ a by simp]
    exact List.drop_left' (by simp)
  unfold replaceFirstCharL
  rw [firstIdxOfChar_append c a b hb]
  show (b ++ c :: a).take b.length ++
      expandDollar [c] ((b ++ c :: a).take b.length)
        ((b ++ c :: a).drop (b.length + 1)) rep ++
      (b ++ c :: a).drop (b.length + 1) = b ++ expandDollar [c] b a rep ++ a
  rw [htake, hdrop]

theorem find?_first_match {α : Type} (q : α → Bool) :
    ∀ (l : List α) (i : Nat) (hi : i < l.length), q (l.get ⟨i, hi⟩) = true →
      ∃ k, ∃ hk : k < l.length, k ≤ i ∧ q (l.get ⟨k, hk⟩) = true ∧
        l.find? q = some (l.get ⟨k, hk⟩)
  | [], i, hi, _ => absurd hi (by simp)
  | a :: t, i, hi, hq => by
    cases hqa : q a with
    | true =>
      exact ⟨0, by simp, Nat.zero_le _, by simpa using hqa,
        by simp [List.find?_cons_of_pos _ hqa, List.get]⟩
    | false =>
      cases i with
      | zero =>
        rw [show (a :: t).get ⟨0, hi⟩ = a from rfl] at hq
        exact absurd hq (by simp [hqa])
      | succ i' =>
        have hi' : i' < t.length := Nat.lt_of_succ_lt_succ hi
        obtain ⟨k, hk, hki, hqk, hfind⟩ :=
          find?_first_match q t i' hi' (by simpa using hq)
        refine ⟨k + 1, Nat.succ_lt_succ hk, Nat.succ_le_succ hki, by simpa using hqk, ?_⟩
        rw [List.find?_cons_of_neg _ (by simp [hqa])]
        simpa using hfind

theorem buildRoutes_shape (m : Manifest) (base d : String) (rs : List Rule)
    (h : buildRoutes m base d = .ok rs) :
    ∃ e mid, entryPointCode m = some e ∧
      compileExports base (m.exports.getD []) = .ok mid ∧
      rs = Rule.entry (pathJoin [base, e]) :: (mid ++ [Rule.staticFallback d]) := by
  unfold buildRoutes at h
  cases he : entryPointCode m with
  | none => rw [he] at h; exact absurd h (by simp)
  | some e =>
    rw [he] at h
    cases hc : compileExports base (m.exports.getD []) with
    | error err => rw [hc] at h; exact absurd h (by simp [Except.map])
    | ok mid =>
      rw [hc] at h
      simp only [Except.map, Except.ok.injEq] at h
      exact ⟨e, mid, rfl, rfl, h.symm⟩

theorem countInv_step (s : ShutdownState) (e : SEvent) (h : countInv s) :
    countInv (sstep s e) := by
  obtain ⟨h1, h2⟩ := h
  unfold countInv sstep
  cases e <;>
    cases hx : s.exited.isSome <;>
      cases hg : s.graceful <;>
        cases ht : s.terminating <;>
          cases hta : s.timerActive <;>
            simp_all

theorem countInv_run (es : List SEvent) :
    ∀ (s : ShutdownState), countInv s → countInv (runEvents s es) := by
  induction es with
  | nil => intro s h; simpa [runEvents] using h
  | cons e rest ih =>
    intro s h
    have : runEvents s (e :: rest) = runEvents (sstep s e) rest := rfl
    rw [this]
    exact ih (sstep s e) (countInv_step s e h)

theorem sstep_mono (s : ShutdownState) (e : SEvent) :
    (s.terminating = true → (sstep s e).terminating = true) ∧
      (s.graceful = false → (sstep s e).graceful = false) := by
  unfold sstep
  cases e <;>
    cases hx : s.exited.isSome <;>
      cases hg : s.graceful <;>
        cases ht : s.terminating <;>
          cases hta : s.timerActive <;>
            simp_all

theorem runEvents_mono (es : List SEvent) :
    ∀ (s : ShutdownState),
      (s.terminating = true → (runEvents s es).terminating = true) ∧
        (s.graceful = false → (runEvents s es).graceful = false) := by
  induction es with
  | nil => intro s; exact ⟨fun h => h, fun h => h⟩
  | cons e rest ih =>
    intro s
    have hstep := sstep_mono s e
    have hrest := ih (sstep s e)
    exact ⟨fun h => hrest.1 (hstep.1 h), fun h => hrest.2 (hstep.2 h)⟩

/-- Claim C3: in the shutdown state machine, when the deadline timer
elapses while draining, the mode flips from Graceful to Kill with no
immediate process action; the process is forcibly terminated with exit
status `-1` only upon a subsequent interrupt received after that flip,
regardless of drain progress. -/
theorem C3_escalation :
    (∀ s : ShutdownState, s.exited = none → s.graceful = true →
      s.terminating = true → s.timerActive = true →
      sstep s .timerFire = { s with graceful := false, timerActive := false }) ∧
    (∀ s : ShutdownState, s.exited = none → s.graceful = false →
      sstep s .interrupt = { s with exited := some (-1) }) ∧
    (∀ s : ShutdownState, s.exited = none →
      (sstep s .timerFire).exited = none ∧
      (sstep s .drainComplete).exited = none ∧
      (s.graceful = true → (sstep s .interrupt).exited = none)) := by
  refine ⟨?_, ?_, ?_⟩
  · intro s hx hg ht hta
    simp [sstep, hx, hta]
  · intro s hx hg
    simp [sstep, hx, hg]
  · intro s hx
    refine ⟨?_, ?_, ?_⟩
    · unfold sstep
      cases hta : s.timerActive <;> simp_all
    · unfold sstep
      cases ht : s.terminating <;> simp_all
    · intro hg
      unfold sstep
      cases ht : s.terminating <;> simp_all

/-- Witness for C3 at the concrete draining state: the timer flips the mode
to Kill without exiting, and the next interrupt exits with `-1`. -/
theorem C3_escalation_witness :
    sstep sDraining .timerFire =
        { sDraining with graceful := false, timerActive := false } ∧
      sstep sEscalated .interrupt = { sEscalated with exited := some (-1) } ∧
      (sstep sDraining .timerFire).exited = none :=
  ⟨C3_escalation.1 sDraining rfl rfl rfl rfl,
   C3_escalation.2.1 sEscalated rfl rfl,
   (C3_escalation.2.2 sDraining rfl).1⟩

/-- Claim C6: while the mode is still Graceful and a drain is in progress,
every further interrupt is a no-op, and across any event sequence from the
installed state at most one drain attempt (one `gsm.terminate` call and one
deadline timer) is ever started. -/
theorem C6_single_drain :
    (∀ s : ShutdownState, s.graceful = true → s.terminating = true →
      sstep s .interrupt = s) ∧
    (∀ es : List SEvent,
      (runEvents initShutdown es).terminateCalls ≤ 1 ∧
        (runEvents initShutdown es).timersStarted ≤ 1) := by
  constructor
  · intro s hg ht
    unfold sstep
    cases hx : s.exited.isSome <;> simp_all
  · intro es
    have h0 : countInv initShutdown := by simp [countInv, initShutdown]
    obtain ⟨h1, h2⟩ := countInv_run es initShutdown h0
    constructor
    · rw [h1]; split <;> simp
    · rw [h2]; split <;> simp

/-- Witness for C6: a second interrupt at the concrete draining state is a
no-op, and the rapid double-interrupt sequence starts one drain attempt. -/
theorem C6_single_drain_witness :
    sstep sDraining .interrupt = sDraining ∧
      (runEvents initShutdown [.interrupt, .interrupt]).terminateCalls ≤ 1 :=
  ⟨C6_single_drain.1 sDraining rfl rfl,
   (C6_single_drain.2 [.interrupt, .interrupt]).1⟩

/-- Claim C9: the shutdown flags evolve monotonically under any event
sequence: once `terminating` is set it never resets, and once the mode has
flipped from Graceful to Kill it never flips back. -/
theorem C9_flag_monotone (s : ShutdownState) (es : List SEvent) :
    (s.terminating = true → (runEvents s es).terminating = true) ∧
      (s.graceful = false → (runEvents s es).graceful = false) :=
  runEvents_mono es s

/-- Witness for C9 at the concrete escalated state. -/
theorem C9_flag_monotone_witness :
    (runEvents sEscalated [.drainComplete, .timerFire]).terminating = true ∧
      (runEvents sEscalated [.drainComplete, .timerFire]).graceful = false :=
  ⟨(C9_flag_monotone sEscalated [.drainComplete, .timerFire]).1 rfl,
   (C9_flag_monotone sEscalated [.drainComplete, .timerFire]).2 rfl⟩

/-- Claim C10: route construction assumes every export value is a string:
for a manifest whose exports map carries the object form of conditional
exports under a non-glob key, `serveModule` throws at route-build time
(`file.endsWith` on a non-string) instead of producing a route table. -/
theorem C10_nonstring_export_throws :
    buildRoutes mNonString "/vendor/foo" "nm/foo" = Except.error .nonStringExport := by
  decide

/-- Counterexample to claim C2: with `browser` present but empty and `main`
set to `index.js`, nullish coalescing picks the empty string, while the
claimed first-non-empty priority would pick `index.js`; the built entry
route then redirects `/` to the bare base URL. -/
theorem C2_counterexample :
    entryPointCode mEmptyBrowser = some "" ∧
      entryPointSpec mEmptyBrowser = some "index.js" ∧
      entryPointCode mEmptyBrowser ≠ entryPointSpec mEmptyBrowser ∧
      buildRoutes mEmptyBrowser "/vendor/foo" "nm/foo" =
        .ok [.entry "/vendor/foo", .staticFallback "nm/foo"] := by
  refine ⟨by decide, by decide, by decide, by decide⟩

/-- Claim C2 as amended: the entry target follows the priority
`browser > module > main` where the first present (non-nullish) field wins
even when its value is empty; when a field is selected the root request
redirects to it joined against the base URL, and when none of the three is
present route construction fails. -/
theorem C2_entry_priority (m : Manifest) :
    (∀ b, m.browser = some b → entryPointCode m = some b) ∧
    (m.browser = none → ∀ v, m.module = some v → entryPointCode m = some v) ∧
    (m.browser = none → m.module = none → entryPointCode m = m.main) ∧
    (entryPointCode m = none → ∀ base d, buildRoutes m base d = .error .entryMissing) ∧
    (∀ e base d rs, entryPointCode m = some e → buildRoutes m base d = .ok rs →
      handle rs "/" = some (.redirect (pathJoin [base, e]))) := by
  refine ⟨?_, ?_, ?_, ?_, ?_⟩
  · intro b hb
    simp [entryPointCode, hb]
  · intro hb v hv
    simp [entryPointCode, hb, hv]
  · intro hb hv
    simp [entryPointCode, hb, hv]
  · intro hnone base d
    unfold buildRoutes
    rw [hnone]
  · intro e base d rs he hb
    obtain ⟨e2, mid, he2, _, hrs⟩ := buildRoutes_shape m base d rs hb
    rw [he] at he2
    injection he2 with he2
    subst he2
    subst hrs
    unfold handle
    have hfind : List.find? (fun r => ruleMatches r "/")
        (Rule.entry (pathJoin [base, e]) :: (mid ++ [Rule.staticFallback d])) =
          some (Rule.entry (pathJoin [base, e])) :=
      List.find?_cons_of_pos _ (by rfl)
    rw [hfind]
    rfl

/-- Witness for C2 as amended, at the spec's scenario manifest. -/
theorem C2_entry_priority_witness :
    entryPointCode mScenario = mScenario.main ∧
      handle routesScenario "/" =
        some (.redirect (pathJoin ["/vendor/foo", "index.js"])) :=
  ⟨(C2_entry_priority mScenario).2.2.1 rfl rfl,
   (C2_entry_priority mScenario).2.2.2.2 "index.js" "/vendor/foo" "nm/foo"
     routesScenario rfl (by decide)⟩

/-- Counterexample to claim C1: for the directory-style export
`"./docs": "documentation"`, the request `/docs` is answered with a 302
redirect (to `path.join(base, "docs", req.url)`, not a static delegation),
and the sub-path `/docs/readme.md` is not forwarded to the declared target
directory — it falls through to the static fallback of the package dir. -/
theorem C1_counterexample :
    buildRoutes mDirCase "/vendor/foo" "nm/foo" = .ok routesDirCase ∧
      handle routesDirCase "/docs" = some (.redirect "/vendor/foo/docs/docs") ∧
      isStaticServe (handle routesDirCase "/docs") = false ∧
      handle routesDirCase "/docs/readme.md" =
        some (.staticServe "nm/foo" "/docs/readme.md") := by
  refine ⟨by decide, by decide, by decide, by decide⟩

/-- Claim C1 as amended: a directory-style export (key without trailing
`*`, target without a `.js` extension) matches only the exact normalized
key path, and answers with a 302 redirect to
`path.join(base_url, key, req.url)` — the declared target directory is not
used and nothing is delegated to static serving by this rule. -/
theorem C1_dir_rule (m : Manifest) (base d b2 : String) (rs : List Rule)
    (p name : String)
    (_hb : buildRoutes m base d = .ok rs)
    (hf : rs.find? (fun r => ruleMatches r p) = some (.dir name b2)) :
    handle rs p = some (.redirect (pathJoin [b2, name, p])) ∧
      (ruleMatches (Rule.dir name b2) p = true ↔ p.data = '/' :: name.data) := by
  constructor
  · unfold handle
    rw [hf]
    rfl
  · simp [ruleMatches]

/-- Witness for C1 as amended, at the concrete directory-export manifest. -/
theorem C1_dir_rule_witness :
    handle routesDirCase "/docs" =
        some (.redirect (pathJoin ["/vendor/foo", "docs", "/docs"])) ∧
      (ruleMatches (Rule.dir "docs" "/vendor/foo") "/docs" = true ↔
        "/docs".data = '/' :: "docs".data) :=
  C1_dir_rule mDirCase "/vendor/foo" "nm/foo" "/vendor/foo" routesDirCase
    "/docs" "docs" (by decide) (by decide)

theorem drop_after_head_append (x : Char) (a b : Chars) :
    List.drop (a.length + 1) (x :: (a ++ b)) = b := by
  have h : (x :: a).length = a.length + 1 := by simp
  rw [← h]
  exact List.drop_left (x :: a) b

/-- Counterexample to claim C5: the compiled glob route for `./glob/*` does
not match the multi-segment remainder `a/b` — the `:file` parameter stops
at a path separator — so `/glob/a/b` is not redirected to
`dist/a/b.min.js` but falls through to the static fallback. -/
theorem C5_counterexample :
    globMatch "glob/".data "/glob/a/b".data = false ∧
      handle routesScenario "/glob/a/b" = some (.staticServe "nm/foo" "/glob/a/b") ∧
      handle routesScenario "/glob/a/b" ≠
        some (.redirect "/vendor/foo/dist/a/b.min.js") := by
  refine ⟨by decide, by decide, by decide⟩

/-- Claim C5 as amended: a compiled GlobRule matches exactly the sub-paths
made of its request prefix followed by one non-empty segment containing no
further path separator, and that single segment is what is substituted into
the target pattern's wildcard. -/
theorem C5_glob_single_segment (pre p b2 f : String) :
    (ruleMatches (Rule.glob pre (.str f) b2) p = true ↔
      ∃ seg : Chars, p.data = '/' :: (pre.data ++ seg) ∧ seg ≠ [] ∧
        seg.contains '/' = false) ∧
    (∀ seg : Chars, p.data = '/' :: (pre.data ++ seg) →
      applyRule (Rule.glob pre (.str f) b2) p =
        .redirect (pathJoin [b2, jsReplaceFirst f '*' ⟨seg⟩])) := by
  constructor
  · simp only [ruleMatches, globMatch, Bool.and_eq_true, isPre_iff]
    constructor
    · rintro ⟨⟨t, ht⟩, hrest⟩
      have hdrop : p.data.drop (pre.data.length + 1) = t := by
        rw [ht]
        exact drop_after_head_append '/' pre.data t
      rw [hdrop] at hrest
      exact ⟨t, by simpa using ht, by simpa using hrest.1, by simpa using hrest.2⟩
    · rintro ⟨seg, hp, hne, hsl⟩
      have ht : p.data = ('/' :: pre.data) ++ seg := by simpa using hp
      have hdrop : p.data.drop (pre.data.length + 1) = seg := by
        rw [hp]
        exact drop_after_head_append '/' pre.data seg
      refine ⟨⟨seg, ht⟩, ?_⟩
      rw [hdrop]
      exact ⟨by simpa using hne, by simpa using hsl⟩
  · intro seg hp
    have hdrop : p.data.drop (pre.data.length + 1) = seg := by
      rw [hp]
      exact drop_after_head_append '/' pre.data seg
    simp only [applyRule, segOf, hdrop]

/-- Witness for C5 as amended: the scenario's glob rule matches the
single-segment request `/glob/x`. -/
theorem C5_glob_single_segment_witness :
    ruleMatches (Rule.glob "glob/" (.str "dist/*.min.js") "/vendor/foo") "/glob/x" = true :=
  (C5_glob_single_segment "glob/" "/glob/x" "/vendor/foo" "dist/*.min.js").1.mpr
    ⟨['x'], by decide, by decide, by decide⟩

/-- Counterexample to claim C4: JS `String.prototype.replace` processes
dollar patterns in the replacement string, so for the captured segment
`$&` the redirect target is the declared pattern with the matched `*`
re-inserted at the wildcard — not the captured segment substituted there as
the claim states for every matching request. -/
theorem C4_counterexample :
    handle routesScenario "/glob/$&" =
        some (.redirect "/vendor/foo/dist/*.min.js") ∧
      handle routesScenario "/glob/$&" ≠
        some (.redirect "/vendor/foo/dist/$&.min.js") := by
  refine ⟨by decide, by decide⟩

/-- Claim C4 as amended: when the first matching rule for a request is the
glob rule compiled from an export key ending in `*`, the response is a
redirect whose target is the declared pattern with the dollar-expanded
captured segment substituted exactly once, at the pattern's wildcard,
joined against the base URL; for captured segments containing no dollar
the segment is substituted verbatim. -/
theorem C4_glob_substitution (m : Manifest) (base d b2 : String) (rs : List Rule)
    (p pre pat before after seg : String)
    (_hb : buildRoutes m base d = .ok rs)
    (hf : rs.find? (fun r => ruleMatches r p) = some (.glob pre (.str pat) b2))
    (hp : p.data = '/' :: (pre.data ++ seg.data))
    (hpat : pat.data = before.data ++ '*' :: after.data)
    (hstar : '*' ∉ before.data) :
    handle rs p = some (.redirect (pathJoin [b2,
        ⟨before.data ++
          (expandDollar ['*'] before.data after.data seg.data ++ after.data)⟩])) ∧
      ('$' ∉ seg.data →
        handle rs p = some (.redirect (pathJoin [b2,
          ⟨before.data ++ (seg.data ++ after.data)⟩]))) := by
  have hmain : handle rs p = some (.redirect (pathJoin [b2,
      ⟨before.data ++
        (expandDollar ['*'] before.data after.data seg.data ++ after.data)⟩])) := by
    unfold handle
    rw [hf]
    have hseg : segOf pre p = seg := by
      unfold segOf
      rw [hp, drop_after_head_append '/' pre.data seg.data]
    simp only [Option.map, applyRule, hseg]
    unfold jsReplaceFirst
    rw [hpat, replaceFirst_at '*' seg.data after.data before.data hstar]
    simp [List.append_assoc]
  refine ⟨hmain, fun hds => ?_⟩
  rw [hmain, expandDollar_no_dollar ['*'] before.data after.data seg.data hds]

/-- Witness for C4 as amended, at the spec's scenario: `/glob/x` is
redirected to the base-joined `dist/` ++ `x` ++ `.min.js`, the dollar-free
segment substituted verbatim. -/
theorem C4_glob_substitution_witness :
    handle routesScenario "/glob/x" =
        some (.redirect (pathJoin ["/vendor/foo",
          ⟨"dist/".data ++
            (expandDollar ['*'] "dist/".data ".min.js".data "x".data ++
              ".min.js".data)⟩])) ∧
      handle routesScenario "/glob/x" =
        some (.redirect (pathJoin ["/vendor/foo",
          ⟨"dist/".data ++ ("x".data ++ ".min.js".data)⟩])) := by
  have h := C4_glob_substitution mScenario "/vendor/foo" "nm/foo" "/vendor/foo"
    routesScenario "/glob/x" "glob/" "dist/*.min.js" "dist/" ".min.js" "x"
    (by decide) (by decide) (by decide) (by decide) (by decide)
  exact ⟨h.1, h.2 (by decide)⟩

/-- Claim C7: route rules are evaluated in declared order — whenever the
rule at position `i` of a built route table matches a request that a later
rule at position `j` also matches, dispatch is decided by a rule at a
position no later than `i`. -/
theorem C7_declared_order (m : Manifest) (base d : String) (rs : List Rule)
    (p : String) (i j : Nat) (hi : i < rs.length) (hj : j < rs.length)
    (_hb : buildRoutes m base d = .ok rs) (_hij : i < j)
    (hmi : ruleMatches (rs.get ⟨i, hi⟩) p = true)
    (_hmj : ruleMatches (rs.get ⟨j, hj⟩) p = true) :
    ∃ k, ∃ hk : k < rs.length, k ≤ i ∧ ruleMatches (rs.get ⟨k, hk⟩) p = true ∧
      handle rs p = some (applyRule (rs.get ⟨k, hk⟩) p) := by
  obtain ⟨k, hk, hki, hqk, hfind⟩ :=
    find?_first_match (fun r => ruleMatches r p) rs i hi hmi
  refine ⟨k, hk, hki, hqk, ?_⟩
  unfold handle
  rw [hfind]
  rfl

/-- Witness for C7 at the overlapping manifest: for `/bar`, matched by both
the glob rule (index 1) and the exact rule (index 2), dispatch is decided
at an index at most 1. -/
theorem C7_declared_order_witness :
    ∃ k, ∃ hk : k < routesOverlap.length, k ≤ 1 ∧
      ruleMatches (routesOverlap.get ⟨k, hk⟩) "/bar" = true ∧
      handle routesOverlap "/bar" =
        some (applyRule (routesOverlap.get ⟨k, hk⟩) "/bar") :=
  C7_declared_order mOverlap "/vendor/foo" "nm/foo" routesOverlap "/bar" 1 2
    (by decide) (by decide) (by decide) (by decide) (by decide) (by decide)

/-- Claim C8: every built route table always produces a response — and when
no rule before the final static fallback matches the request, the response
is the lowest-priority static delegation of the package directory, never an
explicit error from the core. -/
theorem C8_static_fallback (m : Manifest) (base d : String) (rs : List Rule)
    (p : String) (hb : buildRoutes m base d = .ok rs) :
    (handle rs p).isSome = true ∧
      ((∀ r ∈ rs.dropLast, ruleMatches r p = false) →
        handle rs p = some (.staticServe d p)) := by
  obtain ⟨e, mid, _, _, hrs⟩ := buildRoutes_shape m base d rs hb
  subst hrs
  have hsplit : Rule.entry (pathJoin [base, e]) :: (mid ++ [Rule.staticFallback d]) =
      (Rule.entry (pathJoin [base, e]) :: mid) ++ [Rule.staticFallback d] := rfl
  have hlast : List.find? (fun r => ruleMatches r p) [Rule.staticFallback d] =
      some (Rule.staticFallback d) :=
    List.find?_cons_of_pos _ (by rfl)
  constructor
  · unfold handle
    rw [hsplit, List.find?_append, hlast]
    cases (Rule.entry (pathJoin [base, e]) :: mid).find? (fun r => ruleMatches r p) with
    | none => rfl
    | some r => rfl
  · intro hall
    rw [hsplit] at hall ⊢
    rw [List.dropLast_concat] at hall
    have hnone : (Rule.entry (pathJoin [base, e]) :: mid).find?
        (fun r => ruleMatches r p) = none := by
      rw [List.find?_eq_none]
      intro x hx
      simp [hall x hx]
    unfold handle
    rw [List.find?_append, hnone, hlast]
    rfl

/-- Witness for C8 at the spec's scenario: the undeclared sub-path
`/unknown.css` gets a response, namely static delegation of the package
directory. -/
theorem C8_static_fallback_witness :
    (handle routesScenario "/unknown.css").isSome = true ∧
      handle routesScenario "/unknown.css" =
        some (.staticServe "nm/foo" "/unknown.css") :=
  ⟨(C8_static_fallback mScenario "/vendor/foo" "nm/foo" routesScenario "/unknown.css"
      (by decide)).1,
   (C8_static_fallback mScenario "/vendor/foo" "nm/foo" routesScenario "/unknown.css"
      (by decide)).2 (by decide)⟩

end ServerUtils
